import Mathlib

/-! Formal model of the quickswitch terminal navigator core, translated from
the Rust sources: list navigation (src/services/data_provider.rs), the
preview pipeline (src/services/preview_manager.rs,
src/services/global_preview_state.rs, src/services/preview/), the history
store (src/modes/history/data_provider.rs, src/utils.rs, src/config.rs)
and search filtering (src/app_state.rs, src/services/filesystem.rs). -/

namespace Quickswitch

/-- Selection and scroll state of the item list: the two fields of the
ratatui ListState (selected, offset) together with filtered_files.len(),
which is everything the navigation functions in services/data_provider.rs
read and write. -/
structure NavState where
  filteredLen : Nat
  selected : Option Nat
  offset : Nat
  deriving DecidableEq, Repr

/-- Result of one navigation call: the mutated state, the returned Bool,
and whether PreviewManager.preview_for_selected_item was invoked. -/
structure NavResult where
  state : NavState
  success : Bool
  previewTriggered : Bool
  deriving DecidableEq, Repr

/-- DataProvider.update_scroll_offset, services/data_provider.rs lines
149-170 (the trait default used by the async navigation methods).
Nat subtraction coincides with saturating_sub. -/
def update_scroll_offset (s : NavState) (visible_height : Nat) : NavState :=
  if visible_height = 0 then s
  else
    match s.selected with
    | none => s
    | some selected =>
      let current_offset := s.offset
      let new_offset :=
        if selected < current_offset then selected
        else if selected ≥ current_offset + visible_height ∨
            selected < current_offset + visible_height - 1 then
          selected - (visible_height - 1)
        else current_offset
      { s with offset := new_offset }

/-- DataProvider.navigate_up, services/data_provider.rs lines 41-59.
visible_height stands for the value state.layout.get_left_content_height()/2
computed at the top of the function. -/
def navigate_up (s : NavState) (visible_height : Nat) : NavResult :=
  match s.selected with
  | some selected =>
    if selected > 0 then
      ⟨update_scroll_offset { s with selected := some (selected - 1) } visible_height,
        true, true⟩
    else ⟨s, false, false⟩
  | none =>
    if s.filteredLen ≠ 0 then
      ⟨update_scroll_offset { s with selected := some (s.filteredLen - 1) } visible_height,
        true, true⟩
    else ⟨s, false, false⟩

/-- DataProvider.navigate_down, services/data_provider.rs lines 63-84. -/
def navigate_down (s : NavState) (visible_height : Nat) : NavResult :=
  let total := s.filteredLen
  if total = 0 then ⟨s, false, false⟩
  else
    match s.selected with
    | some selected =>
      if selected + 1 < total then
        ⟨update_scroll_offset { s with selected := some (selected + 1) } visible_height,
          true, true⟩
      else ⟨s, false, false⟩
    | none =>
      ⟨update_scroll_offset { s with selected := some 0 } visible_height, true, true⟩

/-- DataProvider.navigate_half_page_up, services/data_provider.rs lines
88-112. Here visible_height is the full get_left_content_height(). -/
def navigate_half_page_up (s : NavState) (visible_height : Nat) : NavResult :=
  let total := s.filteredLen
  if total = 0 then ⟨s, false, false⟩
  else
    let half_page := max (visible_height / 2) 1
    match s.selected with
    | some selected =>
      ⟨update_scroll_offset { s with selected := some (selected - half_page) } visible_height,
        true, true⟩
    | none =>
      if s.filteredLen ≠ 0 then
        ⟨update_scroll_offset { s with selected := some (s.filteredLen - 1) } visible_height,
          true, true⟩
      else ⟨s, false, false⟩

/-- DataProvider.navigate_half_page_down, services/data_provider.rs lines
116-139. -/
def navigate_half_page_down (s : NavState) (visible_height : Nat) : NavResult :=
  let total := s.filteredLen
  if total = 0 then ⟨s, false, false⟩
  else
    let half_page := max (visible_height / 2) 1
    match s.selected with
    | some selected =>
      ⟨update_scroll_offset { s with selected := some (min (selected + half_page) (total - 1)) }
          visible_height, true, true⟩
    | none =>
      if s.filteredLen ≠ 0 then
        ⟨update_scroll_offset { s with selected := some 0 } visible_height, true, true⟩
      else ⟨s, false, false⟩

/-- A navigation request, carrying the visible height the handler passes
down for the scroll recomputation. -/
inductive NavOp where
  | up (vh : Nat)
  | down (vh : Nat)
  | halfUp (vh : Nat)
  | halfDown (vh : Nat)
  deriving DecidableEq, Repr

/-- Dispatch one navigation request. -/
def navStep (s : NavState) : NavOp → NavResult
  | .up vh => navigate_up s vh
  | .down vh => navigate_down s vh
  | .halfUp vh => navigate_half_page_up s vh
  | .halfDown vh => navigate_half_page_down s vh

/-- Run a sequence of navigation requests, keeping only the state. -/
def runNav (s : NavState) (ops : List NavOp) : NavState :=
  ops.foldl (fun t op => (navStep t op).state) s

/-- The selection-bound invariant from the spec: the cursor, if present,
is a valid index into the filtered list. -/
def NavInv (s : NavState) : Prop :=
  ∀ i, s.selected = some i → i < s.filteredLen

theorem update_scroll_offset_selected (s : NavState) (vh : Nat) :
    (update_scroll_offset s vh).selected = s.selected := by
  obtain ⟨len, sel, off⟩ := s
  unfold update_scroll_offset
  split
  · rfl
  · cases sel <;> rfl

theorem update_scroll_offset_filteredLen (s : NavState) (vh : Nat) :
    (update_scroll_offset s vh).filteredLen = s.filteredLen := by
  obtain ⟨len, sel, off⟩ := s
  unfold update_scroll_offset
  split
  · rfl
  · cases sel <;> rfl

/-- The scroll-offset recomputation stated exactly as the specification
words it: keep the selection visible, otherwise leave the offset
unchanged. -/
def spec_keep_selection_visible (old_offset visible_height selection : Nat) : Nat :=
  if selection < old_offset then selection
  else if selection ≥ old_offset + visible_height then selection - (visible_height - 1)
  else old_offset

/-- The offset the trait-default update_scroll_offset actually computes,
in closed form. -/
theorem update_scroll_offset_eq (s : NavState) (vh : Nat) (hvh : 0 < vh) (i : Nat)
    (hi : s.selected = some i) :
    (update_scroll_offset s vh).offset = if i < s.offset then i else i - (vh - 1) := by
  obtain ⟨len, sel, off⟩ := s
  cases sel with
  | none => simp at hi
  | some j =>
    obtain rfl : j = i := by simpa using hi
    unfold update_scroll_offset
    rw [if_neg (by omega)]
    dsimp only
    split_ifs <;> omega

theorem nav_offset_general (r : NavResult) (s1 : NavState) (vh i : Nat) (hvh : 0 < vh)
    (hr : r = ⟨update_scroll_offset s1 vh, true, true⟩) (hsel : r.state.selected = some i) :
    r.state.offset = if i < s1.offset then i else i - (vh - 1) := by
  subst hr
  exact update_scroll_offset_eq s1 vh hvh i
    (by rw [update_scroll_offset_selected] at hsel; exact hsel)

/-- C2 counterexample: from the (reachable) state with 10 filtered rows,
selection 5 and offset 3 and a visible height of 3 rows, navigate_up
succeeds with new selection 4, which lies inside the visible window
[3, 6), so the keep-selection-visible rule of the specification leaves
the offset at 3 — but the code moves it to 2. -/
theorem C2_counterexample :
    (navigate_up ⟨10, some 5, 3⟩ 3).success = true ∧
    (navigate_up ⟨10, some 5, 3⟩ 3).state.selected = some 4 ∧
    (navigate_up ⟨10, some 5, 3⟩ 3).state.offset = 2 ∧
    spec_keep_selection_visible 3 3 4 = 3 ∧
    (navigate_up ⟨10, some 5, 3⟩ 3).state.offset ≠ spec_keep_selection_visible 3 3 4 := by
  decide

/-- C2 (amended): after every successful navigate_up/navigate_down with
visible_height > 0, the recomputed offset equals the new selection when
the new selection is below the old offset, and otherwise equals the new
selection minus (visible_height - 1), clamped at 0; it is left unchanged
only when that value coincides with the old offset (in particular when
the new selection equals old offset + visible_height - 1), not in every
case where the selection is already visible. -/
theorem C2_scroll_rule (s : NavState) (vh i : Nat) (hvh : 0 < vh) :
    ((navigate_up s vh).success = true → (navigate_up s vh).state.selected = some i →
      (navigate_up s vh).state.offset = if i < s.offset then i else i - (vh - 1)) ∧
    ((navigate_down s vh).success = true → (navigate_down s vh).state.selected = some i →
      (navigate_down s vh).state.offset = if i < s.offset then i else i - (vh - 1)) := by
  obtain ⟨len, sel, off⟩ := s
  constructor
  · intro hs hsel
    cases sel with
    | none =>
      by_cases hlen : len = 0
      · simp [navigate_up, hlen] at hs
      · have hr : navigate_up ⟨len, none, off⟩ vh =
            ⟨update_scroll_offset ⟨len, some (len - 1), off⟩ vh, true, true⟩ := by
          simp [navigate_up, hlen]
        exact nav_offset_general _ ⟨len, some (len - 1), off⟩ vh i hvh hr hsel
    | some j =>
      by_cases hj : j > 0
      · have hr : navigate_up ⟨len, some j, off⟩ vh =
            ⟨update_scroll_offset ⟨len, some (j - 1), off⟩ vh, true, true⟩ := by
          simp [navigate_up, hj]
        exact nav_offset_general _ ⟨len, some (j - 1), off⟩ vh i hvh hr hsel
      · simp [navigate_up, hj] at hs
  · intro hs hsel
    cases sel with
    | none =>
      by_cases hlen : len = 0
      · simp [navigate_down, hlen] at hs
      · have hr : navigate_down ⟨len, none, off⟩ vh =
            ⟨update_scroll_offset ⟨len, some 0, off⟩ vh, true, true⟩ := by
          simp [navigate_down, hlen]
        exact nav_offset_general _ ⟨len, some 0, off⟩ vh i hvh hr hsel
    | some j =>
      by_cases hlen : len = 0
      · simp [navigate_down, hlen] at hs
      · by_cases hj : j + 1 < len
        · have hr : navigate_down ⟨len, some j, off⟩ vh =
              ⟨update_scroll_offset ⟨len, some (j + 1), off⟩ vh, true, true⟩ := by
            simp [navigate_down, hlen, hj]
          exact nav_offset_general _ ⟨len, some (j + 1), off⟩ vh i hvh hr hsel
        · simp [navigate_down, hlen, hj] at hs

/-- C2 witness: the amended rule applied at the counterexample state. -/
theorem C2_scroll_rule_witness :
    (navigate_up ⟨10, some 5, 3⟩ 3).state.offset = if 4 < 3 then 4 else 4 - (3 - 1) :=
  (C2_scroll_rule ⟨10, some 5, 3⟩ 3 4 (by decide)).1 (by decide) (by decide)

theorem NavInv_uso (s1 : NavState) (vh : Nat) (h : NavInv s1) :
    NavInv (update_scroll_offset s1 vh) := by
  intro i hi
  rw [update_scroll_offset_selected] at hi
  rw [update_scroll_offset_filteredLen]
  exact h i hi

theorem NavInv_mk (len : Nat) (j : Nat) (off : Nat) (h : j < len) :
    NavInv ⟨len, some j, off⟩ := by
  intro i hi
  have hj : j = i := Option.some.inj hi
  show i < len
  omega

theorem navStep_inv (s : NavState) (op : NavOp) (h : NavInv s) :
    NavInv (navStep s op).state := by
  obtain ⟨len, sel, off⟩ := s
  cases op with
  | up vh =>
    cases sel with
    | none =>
      by_cases hlen : len = 0
      · simpa [navStep, navigate_up, hlen] using h
      · have hr : (navStep ⟨len, none, off⟩ (.up vh)).state =
            update_scroll_offset ⟨len, some (len - 1), off⟩ vh := by
          simp [navStep, navigate_up, hlen]
        rw [hr]
        exact NavInv_uso _ _ (NavInv_mk _ _ _ (by omega))
    | some j =>
      by_cases hj : j > 0
      · have hjlen : j < len := h j rfl
        have hr : (navStep ⟨len, some j, off⟩ (.up vh)).state =
            update_scroll_offset ⟨len, some (j - 1), off⟩ vh := by
          simp [navStep, navigate_up, hj]
        rw [hr]
        exact NavInv_uso _ _ (NavInv_mk _ _ _ (by omega))
      · simpa [navStep, navigate_up, hj] using h
  | down vh =>
    cases sel with
    | none =>
      by_cases hlen : len = 0
      · simpa [navStep, navigate_down, hlen] using h
      · have hr : (navStep ⟨len, none, off⟩ (.down vh)).state =
            update_scroll_offset ⟨len, some 0, off⟩ vh := by
          simp [navStep, navigate_down, hlen]
        rw [hr]
        exact NavInv_uso _ _ (NavInv_mk _ _ _ (by omega))
    | some j =>
      by_cases hlen : len = 0
      · simpa [navStep, navigate_down, hlen] using h
      · by_cases hj : j + 1 < len
        · have hr : (navStep ⟨len, some j, off⟩ (.down vh)).state =
              update_scroll_offset ⟨len, some (j + 1), off⟩ vh := by
            simp [navStep, navigate_down, hlen, hj]
          rw [hr]
          exact NavInv_uso _ _ (NavInv_mk _ _ _ (by omega))
        · simpa [navStep, navigate_down, hlen, hj] using h
  | halfUp vh =>
    cases sel with
    | none =>
      by_cases hlen : len = 0
      · simpa [navStep, navigate_half_page_up, hlen] using h
      · have hr : (navStep ⟨len, none, off⟩ (.halfUp vh)).state =
            update_scroll_offset ⟨len, some (len - 1), off⟩ vh := by
          simp [navStep, navigate_half_page_up, hlen]
        rw [hr]
        exact NavInv_uso _ _ (NavInv_mk _ _ _ (by omega))
    | some j =>
      by_cases hlen : len = 0
      · simpa [navStep, navigate_half_page_up, hlen] using h
      · have hjlen : j < len := h j rfl
        have hr : (navStep ⟨len, some j, off⟩ (.halfUp vh)).state =
            update_scroll_offset ⟨len, some (j - max (vh / 2) 1), off⟩ vh := by
          simp [navStep, navigate_half_page_up, hlen]
        rw [hr]
        exact NavInv_uso _ _ (NavInv_mk _ _ _ (by omega))
  | halfDown vh =>
    cases sel with
    | none =>
      by_cases hlen : len = 0
      · simpa [navStep, navigate_half_page_down, hlen] using h
      · have hr : (navStep ⟨len, none, off⟩ (.halfDown vh)).state =
            update_scroll_offset ⟨len, some 0, off⟩ vh := by
          simp [navStep, navigate_half_page_down, hlen]
        rw [hr]
        exact NavInv_uso _ _ (NavInv_mk _ _ _ (by omega))
    | some j =>
      by_cases hlen : len = 0
      · simpa [navStep, navigate_half_page_down, hlen] using h
      · have hr : (navStep ⟨len, some j, off⟩ (.halfDown vh)).state =
            update_scroll_offset
              ⟨len, some (min (j + max (vh / 2) 1) (len - 1)), off⟩ vh := by
          simp [navStep, navigate_half_page_down, hlen]
        rw [hr]
        exact NavInv_uso _ _ (NavInv_mk _ _ _ (by omega))

theorem runNav_inv (ops : List NavOp) (s : NavState) (h : NavInv s) :
    NavInv (runNav s ops) := by
  induction ops generalizing s with
  | nil => exact h
  | cons op rest ih => exact ih _ (navStep_inv s op h)

/-- C5: starting from any state whose selection, when present, is a valid
index, every sequence of the four navigation operations keeps it a valid
index; navigate_up at index 0 and navigate_down at the last index return
false and leave the state unchanged; on an empty list all four operations
return false. -/
theorem C5_navigation_bounds (s : NavState) (h : NavInv s) :
    (∀ ops : List NavOp, NavInv (runNav s ops)) ∧
    (∀ vh, s.selected = some 0 → navigate_up s vh = ⟨s, false, false⟩) ∧
    (∀ vh, 0 < s.filteredLen → s.selected = some (s.filteredLen - 1) →
      navigate_down s vh = ⟨s, false, false⟩) ∧
    (s.filteredLen = 0 → ∀ vh,
      (navigate_up s vh).success = false ∧ (navigate_up s vh).state = s ∧
      (navigate_down s vh).success = false ∧
      (navigate_half_page_up s vh).success = false ∧
      (navigate_half_page_down s vh).success = false) := by
  obtain ⟨len, sel, off⟩ := s
  refine ⟨fun ops => runNav_inv ops _ h, ?_, ?_, ?_⟩
  · intro vh hsel
    have : sel = some 0 := hsel
    subst this
    simp [navigate_up]
  · intro vh hlen hsel
    have hlen2 : 0 < len := hlen
    have : sel = some (len - 1) := hsel
    subst this
    show navigate_down ⟨len, some (len - 1), off⟩ vh =
      ⟨⟨len, some (len - 1), off⟩, false, false⟩
    unfold navigate_down
    dsimp only
    rw [if_neg (by omega), if_neg (by omega)]
  · intro hlen vh
    have hnone : sel = none := by
      cases sel with
      | none => rfl
      | some j =>
        have hj : j < len := h j rfl
        have hlen2 : len = 0 := hlen
        omega
    subst hnone
    have hlen2 : len = 0 := hlen
    subst hlen2
    refine ⟨?_, ?_, ?_, ?_, ?_⟩ <;>
      simp [navigate_up, navigate_down, navigate_half_page_up, navigate_half_page_down]

/-- C5 witness: the bounds theorem applied to a concrete three-row state. -/
theorem C5_navigation_bounds_witness :
    NavInv (runNav ⟨3, some 1, 0⟩ [.down 2, .down 2, .down 2, .up 2, .halfDown 4, .halfUp 4]) := by
  have h := C5_navigation_bounds ⟨3, some 1, 0⟩
    (by intro i hi; have h1 : (1 : Nat) = i := Option.some.inj hi; show i < 3; omega)
  exact h.1 _

/-- C9: in the unified provider, when nothing is selected and the filtered
list is non-empty, navigate_down selects index 0 and navigate_up selects
the last index; both return true, trigger a preview for the new selection,
and recompute the scroll offset. -/
theorem C9_entry_from_no_selection (s : NavState) (vh : Nat)
    (hsel : s.selected = none) (hne : 0 < s.filteredLen) :
    (navigate_down s vh).state.selected = some 0 ∧
    (navigate_down s vh).success = true ∧
    (navigate_down s vh).previewTriggered = true ∧
    (navigate_up s vh).state.selected = some (s.filteredLen - 1) ∧
    (navigate_up s vh).success = true ∧
    (navigate_up s vh).previewTriggered = true ∧
    (0 < vh → (navigate_down s vh).state.offset = 0) ∧
    (0 < vh → (navigate_up s vh).state.offset =
      if s.filteredLen - 1 < s.offset then s.filteredLen - 1
      else s.filteredLen - 1 - (vh - 1)) := by
  obtain ⟨len, sel, off⟩ := s
  have : sel = none := hsel
  subst this
  have hne2 : 0 < len := hne
  have hlen : ¬len = 0 := by omega
  have hrd : navigate_down ⟨len, none, off⟩ vh =
      ⟨update_scroll_offset ⟨len, some 0, off⟩ vh, true, true⟩ := by
    simp [navigate_down, hlen]
  have hru : navigate_up ⟨len, none, off⟩ vh =
      ⟨update_scroll_offset ⟨len, some (len - 1), off⟩ vh, true, true⟩ := by
    simp [navigate_up, hlen]
  rw [hrd, hru]
  refine ⟨?_, rfl, rfl, ?_, rfl, rfl, ?_, ?_⟩
  · rw [update_scroll_offset_selected]
  · rw [update_scroll_offset_selected]
  · intro hvh
    rw [update_scroll_offset_eq _ vh hvh 0 rfl]
    simp
  · intro hvh
    exact update_scroll_offset_eq _ vh hvh (len - 1) rfl

/-- C9 witness: entry from no selection on a concrete two-row state. -/
theorem C9_entry_from_no_selection_witness :
    (navigate_down ⟨2, none, 5⟩ 1).state.selected = some 0 ∧
    (navigate_up ⟨2, none, 5⟩ 1).state.selected = some 1 := by
  have h := C9_entry_from_no_selection ⟨2, none, 5⟩ 1 rfl (by decide)
  exact ⟨h.1, h.2.2.2.1⟩

/-- The process-wide PreviewState, services/global_preview_state.rs lines
11-16; the text content is modelled as its list of lines. Note the
structure has no field recording which path the content belongs to. -/
structure PreviewState where
  content : List String
  title : String
  scroll_offset : Nat
  deriving DecidableEq, Repr

/-- GlobalPreviewState.update_preview, global_preview_state.rs lines
49-55: it overwrites title and content and resets the scroll offset,
unconditionally. -/
def update_preview (s : PreviewState) (title : String) (content : List String) :
    PreviewState :=
  { s with title := title, content := content, scroll_offset := 0 }

/-- Environment of the preview pipeline: the display name a path maps to
(FileItem.from_path) and the title/content the background
PreviewGenerator computes for a path. -/
structure PreviewEnv where
  fileName : String → String
  generated : String → String × List String

/-- The placeholder content written synchronously by
PreviewManager.update_preview_for_item_async, preview_manager.rs lines
29-39. -/
def placeholder_content : List String :=
  ["Loading preview...", "", "Please wait while content is being processed."]

/-- One atomic write against the shared PreviewState during a selection
change, preview_manager.rs lines 18-63: the synchronous placeholder
write, or the spawned background task completing and publishing. -/
inductive PreviewEvent where
  | placeholder (path : String)
  | taskComplete (path : String)
  deriving DecidableEq, Repr

/-- Execute one preview write: both call GlobalPreviewState.update_preview
with no identity comparison beforehand. -/
def stepPreviewEvent (env : PreviewEnv) (s : PreviewState) : PreviewEvent → PreviewState
  | .placeholder p => update_preview s ("📄 " ++ env.fileName p) placeholder_content
  | .taskComplete p => update_preview s (env.generated p).1 (env.generated p).2

/-- An interleaving of preview writes executed against the shared state. -/
def runPreviewEvents (env : PreviewEnv) (s : PreviewState)
    (trace : List PreviewEvent) : PreviewState :=
  trace.foldl (stepPreviewEvent env) s

/-- A concrete two-file environment for the staleness counterexample. -/
def envAB : PreviewEnv :=
  { fileName := fun p => p
    generated := fun p => ("📄 " ++ p, ["contents of " ++ p]) }

/-- C1 counterexample: selection A = path a, then selection B = path b;
A's background task completes after B's placeholder is written (here even
after B's completion). The finally published preview is A's, not B's:
update_preview records and checks no identity, so the stale result is
published rather than discarded. -/
theorem C1_counterexample :
    runPreviewEvents envAB ⟨["No file selected"], "Preview", 0⟩
        [.placeholder "a", .placeholder "b", .taskComplete "b", .taskComplete "a"] =
      ⟨["contents of a"], "📄 a", 0⟩ ∧
    ("📄 a" : String) ≠ "📄 b" := by
  exact ⟨rfl, by decide⟩

/-- C1 (amended): PreviewState stores no initiating-path identity and
update_preview publishes unconditionally, so over any interleaving the
finally published preview is that of the last write: whenever a
background unit for some path completes last, the final title and content
are that path's result, regardless of which selection came later. -/
theorem C1_last_write_wins (env : PreviewEnv) (s : PreviewState)
    (trace : List PreviewEvent) (p : String) :
    (runPreviewEvents env s (trace ++ [.taskComplete p])).title = (env.generated p).1 ∧
    (runPreviewEvents env s (trace ++ [.taskComplete p])).content = (env.generated p).2 ∧
    (runPreviewEvents env s (trace ++ [.placeholder p])).title =
      "📄 " ++ env.fileName p := by
  refine ⟨?_, ?_, ?_⟩ <;>
    simp [runPreviewEvents, List.foldl_append, stepPreviewEvent, update_preview]

/-- utils.rs HistoryEntry, lines 41-47; the chrono timestamps are
modelled as integers, the u32 frequency as a Nat that is reduced modulo
2^32 where it is incremented. -/
structure HistoryEntry where
  path : String
  frequency : Nat
  last_accessed : Int
  first_accessed : Int
  deriving DecidableEq, Repr

def U32_MOD : Nat := 2 ^ 32

/-- HistoryEntry.new, utils.rs lines 50-58. -/
def HistoryEntry.new (path : String) (now : Int) : HistoryEntry :=
  { path := path, frequency := 1, last_accessed := now, first_accessed := now }

/-- HistoryEntry.increment_frequency, utils.rs lines 60-63, with the u32
wrap-around made explicit. -/
def HistoryEntry.increment_frequency (e : HistoryEntry) (now : Int) : HistoryEntry :=
  { e with frequency := (e.frequency + 1) % U32_MOD, last_accessed := now }

@[simp]
theorem HistoryEntry.increment_frequency_path (e : HistoryEntry) (now : Int) :
    (e.increment_frequency now).path = e.path := rfl

/-- utils.rs FileItem, lines 125-130. -/
structure FileItem where
  name : String
  path : String
  is_dir : Bool
  deriving DecidableEq, Repr

/-- utils.rs DisplayItem, lines 91-95. -/
inductive DisplayItem where
  | File (f : FileItem)
  | History (e : HistoryEntry)
  deriving DecidableEq, Repr

/-- Split a character list at every occurrence of a separator; always
returns at least one (possibly empty) segment. -/
def splitOnChar (sep : Char) : List Char → List (List Char)
  | [] => [[]]
  | c :: rest =>
    if c == sep then [] :: splitOnChar sep rest
    else
      match splitOnChar sep rest with
      | [] => [[c]]
      | g :: gs => (c :: g) :: gs

/-- Path::file_name().and_then(to_str).unwrap_or_default(): the final
non-empty path component ignoring trailing slashes and single-dot
components; the empty string when the path has no usable final component
(root, empty, or ending in a parent reference). -/
def rustFileName (p : String) : String :=
  match (((splitOnChar (Char.ofNat 47) p.data).map String.mk).filter
      (fun c => (c != "") && (c != "."))).getLast? with
  | some c => if c = ".." then "" else c
  | none => ""

/-- DisplayItem.get_display_name, utils.rs lines 98-108. -/
def DisplayItem.get_display_name : DisplayItem → String
  | .File f => f.name
  | .History e => rustFileName e.path

/-- DisplayItem.get_path, utils.rs lines 110-115. -/
def DisplayItem.get_path : DisplayItem → String
  | .File f => f.path
  | .History e => e.path

/-- DisplayItem.is_directory, utils.rs lines 117-122; history entries
consult the filesystem, modelled by the isDir oracle. -/
def DisplayItem.is_directory (isDir : String → Bool) : DisplayItem → Bool
  | .File f => f.is_dir
  | .History e => isDir e.path

/-- utils.rs HistorySortMode, lines 84-89. -/
inductive HistorySortMode where
  | Frequency
  | Recent
  | FrequencyRecent
  | Alphabetical
  deriving DecidableEq, Repr

/-- config.rs HistoryConfig, lines 68-88, at its (only) default values. -/
structure HistoryConfig where
  max_entries : Nat
  sort_mode : HistorySortMode
  time_decay_days : Nat
  min_frequency_threshold : Nat
  deriving DecidableEq, Repr

/-- config.rs get_history_config, lines 79-94. -/
def get_history_config : HistoryConfig :=
  { max_entries := 100
    sort_mode := .FrequencyRecent
    time_decay_days := 30
    min_frequency_threshold := 1 }

/-- Vec::iter().position(pred) combined with Vec::remove(index): the
first element satisfying the predicate, together with the list with that
element removed. -/
def removeFirst {α : Type} (pred : α → Bool) : List α → Option (α × List α)
  | [] => none
  | x :: xs =>
    if pred x then some (x, xs)
    else
      match removeFirst pred xs with
      | some (y, ys) => some (y, x :: ys)
      | none => none

theorem removeFirst_none {α : Type} (pred : α → Bool) (l : List α)
    (h : removeFirst pred l = none) : ∀ x ∈ l, pred x = false := by
  induction l with
  | nil => intro x hx; cases hx
  | cons y t ih =>
    intro x hx
    unfold removeFirst at h
    by_cases hy : pred y
    · rw [if_pos hy] at h; cases h
    · rw [if_neg hy] at h
      rcases List.mem_cons.mp hx with rfl | hx2
      · exact Bool.eq_false_iff.mpr hy
      · cases hrec : removeFirst pred t with
        | some r => rw [hrec] at h; obtain ⟨y2, ys2⟩ := r; cases h
        | none => exact ih hrec x hx2

theorem removeFirst_decomp {α : Type} (pred : α → Bool) (l : List α) (x : α)
    (rest : List α) (h : removeFirst pred l = some (x, rest)) :
    pred x = true ∧ ∃ l1 l2, l = l1 ++ x :: l2 ∧ rest = l1 ++ l2 ∧
      ∀ y ∈ l1, pred y = false := by
  induction l generalizing rest with
  | nil => cases h
  | cons y t ih =>
    unfold removeFirst at h
    by_cases hy : pred y
    · rw [if_pos hy] at h
      obtain ⟨rfl, rfl⟩ : y = x ∧ t = rest := by simpa using h
      exact ⟨hy, [], t, rfl, rfl, by simp⟩
    · rw [if_neg hy] at h
      cases hrec : removeFirst pred t with
      | none => rw [hrec] at h; cases h
      | some r =>
        obtain ⟨x2, rest2⟩ := r
        rw [hrec] at h
        obtain ⟨rfl, rfl⟩ : x2 = x ∧ y :: rest2 = rest := by simpa using h
        obtain ⟨hp, l1, l2, rfl, rfl, hl1⟩ := ih rest2 hrec
        refine ⟨hp, y :: l1, l2, rfl, rfl, ?_⟩
        intro z hz
        rcases List.mem_cons.mp hz with rfl | hz2
        · exact Bool.eq_false_iff.mpr hy
        · exact hl1 z hz2

theorem removeFirst_of_mem {α : Type} (pred : α → Bool) (l : List α) (x : α)
    (hx : x ∈ l) (hpx : pred x = true) :
    ∃ y rest, removeFirst pred l = some (y, rest) := by
  induction l with
  | nil => cases hx
  | cons z t ih =>
    by_cases hz : pred z
    · exact ⟨z, t, by simp [removeFirst, hz]⟩
    · rcases List.mem_cons.mp hx with rfl | hx2
      · rw [hpx] at hz; exact absurd rfl hz
      · obtain ⟨y, rest, hr⟩ := ih hx2
        exact ⟨y, z :: rest, by simp [removeFirst, hz, hr]⟩

/-- The list mutation performed by HistoryDataProvider.add_to_history,
modes/history/data_provider.rs lines 126-150: locate any existing entry
for the path and move it, incremented, to the front, otherwise insert a
fresh entry at the front; then truncate to max_entries. -/
def add_to_history_entries (entries : List HistoryEntry) (path : String) (now : Int)
    (max_entries : Nat) : List HistoryEntry :=
  let entries1 :=
    match removeFirst (fun e => e.path == path) entries with
    | some (entry, rest) => entry.increment_frequency now :: rest
    | none => HistoryEntry.new path now :: entries
  if entries1.length > max_entries then entries1.take max_entries else entries1

theorem add_entries_some (entries : List HistoryEntry) (p : String) (now : Int) (m : Nat)
    (x : HistoryEntry) (rest : List HistoryEntry)
    (h : removeFirst (fun e => e.path == p) entries = some (x, rest)) :
    add_to_history_entries entries p now m =
      (if (x.increment_frequency now :: rest).length > m
       then (x.increment_frequency now :: rest).take m
       else x.increment_frequency now :: rest) := by
  unfold add_to_history_entries
  rw [h]

theorem add_entries_none (entries : List HistoryEntry) (p : String) (now : Int) (m : Nat)
    (h : removeFirst (fun e => e.path == p) entries = none) :
    add_to_history_entries entries p now m =
      (if (HistoryEntry.new p now :: entries).length > m
       then (HistoryEntry.new p now :: entries).take m
       else HistoryEntry.new p now :: entries) := by
  unfold add_to_history_entries
  rw [h]

theorem truncate_cons_head (x : HistoryEntry) (t : List HistoryEntry) (m : Nat)
    (hm : 0 < m) :
    ∃ t2, (if (x :: t).length > m then (x :: t).take m else x :: t) = x :: t2 ∧
      t2.Sublist t := by
  split
  · obtain ⟨k, rfl⟩ : ∃ k, m = k + 1 := ⟨m - 1, by omega⟩
    exact ⟨t.take k, by simp [List.take_succ_cons], List.take_sublist k t⟩
  · exact ⟨t, rfl, List.Sublist.refl t⟩

theorem add_entries_length_le (entries : List HistoryEntry) (p : String) (now : Int)
    (m : Nat) : (add_to_history_entries entries p now m).length ≤ m := by
  unfold add_to_history_entries
  dsimp only
  split
  · rw [List.length_take]; omega
  · omega

theorem path_unique_mem (l : List HistoryEntry)
    (huniq : (l.map HistoryEntry.path).Nodup) (a b : HistoryEntry)
    (ha : a ∈ l) (hb : b ∈ l) (hab : a.path = b.path) : a = b := by
  induction l with
  | nil => cases ha
  | cons y t ih =>
    simp only [List.map_cons, List.nodup_cons] at huniq
    rcases List.mem_cons.mp ha with rfl | ha2
    · rcases List.mem_cons.mp hb with rfl | hb2
      · rfl
      · have hmem : a.path ∈ t.map HistoryEntry.path := by
          rw [hab]; exact List.mem_map_of_mem _ hb2
        exact absurd hmem huniq.1
    · rcases List.mem_cons.mp hb with rfl | hb2
      · have hmem : b.path ∈ t.map HistoryEntry.path := by
          rw [← hab]; exact List.mem_map_of_mem _ ha2
        exact absurd hmem huniq.1
      · exact ih huniq.2 ha2 hb2

theorem removeFirst_path_nodup (entries : List HistoryEntry) (p : String)
    (x : HistoryEntry) (rest : List HistoryEntry)
    (huniq : (entries.map HistoryEntry.path).Nodup)
    (h : removeFirst (fun e => e.path == p) entries = some (x, rest)) :
    x.path = p ∧ x ∈ entries ∧ (∀ z ∈ rest, z ∈ entries) ∧
      (x.path :: rest.map HistoryEntry.path).Nodup ∧
      rest.length + 1 = entries.length := by
  obtain ⟨hpx, l1, l2, rfl, rfl, hl1⟩ := removeFirst_decomp _ _ _ _ h
  have hpx2 : x.path = p := by simpa using hpx
  refine ⟨hpx2, by simp, ?_, ?_, by simp; omega⟩
  · intro z hz
    rcases List.mem_append.mp hz with h1 | h2
    · exact List.mem_append.mpr (Or.inl h1)
    · exact List.mem_append.mpr (Or.inr (List.mem_cons.mpr (Or.inr h2)))
  · have h1 : (l1.map HistoryEntry.path ++
        x.path :: l2.map HistoryEntry.path).Nodup := by simpa using huniq
    have h2 : (x.path :: (l1.map HistoryEntry.path ++ l2.map HistoryEntry.path)).Nodup :=
      List.nodup_middle.mp h1
    simpa using h2

/-- C4: adding a path keeps at most one stored entry per path: an
existing entry is incremented, its last_accessed refreshed, and it is
moved to the front; a missing path gets a fresh entry (frequency 1, both
timestamps now) at the front; the list is then truncated to max_entries
(default 100) by dropping a suffix; and adding the same path twice to a
store not containing it leaves exactly one entry for it, with
frequency 2. -/
theorem C4_add_to_history (entries : List HistoryEntry) (p : String) (now now2 : Int)
    (huniq : (entries.map HistoryEntry.path).Nodup) :
    ((add_to_history_entries entries p now 100).map HistoryEntry.path).Nodup ∧
    (∀ e, e ∈ entries → e.path = p → e.frequency + 1 < U32_MOD →
      (add_to_history_entries entries p now 100).head? =
        some { e with frequency := e.frequency + 1, last_accessed := now }) ∧
    ((∀ e, e ∈ entries → e.path ≠ p) →
      (add_to_history_entries entries p now 100).head? = some (HistoryEntry.new p now)) ∧
    (add_to_history_entries entries p now 100).length ≤ 100 ∧
    (∃ dropped, add_to_history_entries entries p now (entries.length + 1) =
      add_to_history_entries entries p now 100 ++ dropped) ∧
    ((∀ e, e ∈ entries → e.path ≠ p) →
      (add_to_history_entries (add_to_history_entries entries p now 100) p now2 100).filter
          (fun e => e.path == p) =
        [{ path := p, frequency := 2, last_accessed := now2, first_accessed := now }]) := by
  cases hfind : removeFirst (fun e => e.path == p) entries with
  | some r =>
    obtain ⟨x, rest⟩ := r
    obtain ⟨hxp, hxmem, hrestmem, hnodup2, hrlen⟩ :=
      removeFirst_path_nodup entries p x rest huniq hfind
    have hadd100if := add_entries_some entries p now 100 x rest hfind
    have haddBig := add_entries_some entries p now (entries.length + 1) x rest hfind
    obtain ⟨t2, ht2, ht2sub⟩ :=
      truncate_cons_head (x.increment_frequency now) rest 100 (by omega)
    have hadd100 := hadd100if.trans ht2
    refine ⟨?_, ?_, ?_, add_entries_length_le entries p now 100, ?_, ?_⟩
    · rw [hadd100]
      simp only [List.map_cons, HistoryEntry.increment_frequency_path, List.nodup_cons]
      rw [List.nodup_cons] at hnodup2
      constructor
      · intro hmem
        obtain ⟨z, hz, hzp⟩ := List.mem_map.mp hmem
        have hz2 : z.path ∈ rest.map HistoryEntry.path :=
          List.mem_map_of_mem _ (ht2sub.subset hz)
        rw [hzp] at hz2
        exact hnodup2.1 hz2
      · exact hnodup2.2.sublist (ht2sub.map HistoryEntry.path)
    · intro e he hep hlt
      have hxe : x = e := path_unique_mem entries huniq x e hxmem he (by rw [hxp, hep])
      subst hxe
      rw [hadd100]
      simp [HistoryEntry.increment_frequency, Nat.mod_eq_of_lt hlt]
    · intro habs
      exact absurd hxp (habs x hxmem)
    · rw [if_neg (by simp only [List.length_cons]; omega)] at haddBig
      rw [haddBig, hadd100if]
      split
      · exact ⟨(x.increment_frequency now :: rest).drop 100,
          (List.take_append_drop 100 _).symm⟩
      · exact ⟨[], by simp⟩
    · intro habs
      exact absurd hxp (habs x hxmem)
  | none =>
    have habs0 : ∀ z ∈ entries, z.path ≠ p := by
      intro z hz
      have := removeFirst_none _ _ hfind z hz
      simpa using this
    have hadd100if := add_entries_none entries p now 100 hfind
    have haddBig := add_entries_none entries p now (entries.length + 1) hfind
    obtain ⟨t2, ht2, ht2sub⟩ := truncate_cons_head (HistoryEntry.new p now) entries 100
      (by omega)
    have hadd100 := hadd100if.trans ht2
    refine ⟨?_, ?_, ?_, add_entries_length_le entries p now 100, ?_, ?_⟩
    · rw [hadd100]
      simp only [List.map_cons, List.nodup_cons]
      constructor
      · intro hmem
        obtain ⟨z, hz, hzp⟩ := List.mem_map.mp hmem
        exact habs0 z (ht2sub.subset hz) (by simpa [HistoryEntry.new] using hzp)
      · exact huniq.sublist (ht2sub.map HistoryEntry.path)
    · intro e he hep _
      exact absurd hep (habs0 e he)
    · intro _
      rw [hadd100]
      rfl
    · rw [if_neg (by simp only [List.length_cons]; omega)] at haddBig
      rw [haddBig, hadd100if]
      split
      · exact ⟨(HistoryEntry.new p now :: entries).drop 100,
          (List.take_append_drop 100 _).symm⟩
      · exact ⟨[], by simp⟩
    · intro _
      rw [hadd100]
      have hfind2 : removeFirst (fun e => e.path == p) (HistoryEntry.new p now :: t2) =
          some (HistoryEntry.new p now, t2) := by
        simp [removeFirst, HistoryEntry.new]
      have hadd2if := add_entries_some (HistoryEntry.new p now :: t2) p now2 100
        (HistoryEntry.new p now) t2 hfind2
      have hinc : (HistoryEntry.new p now).increment_frequency now2 =
          { path := p, frequency := 2, last_accessed := now2, first_accessed := now } := by
        simp [HistoryEntry.new, HistoryEntry.increment_frequency, U32_MOD]
      obtain ⟨t3, ht3, ht3sub⟩ :=
        truncate_cons_head ((HistoryEntry.new p now).increment_frequency now2) t2 100
          (by omega)
      rw [hadd2if.trans ht3, hinc]
      have hfilter : t3.filter (fun e => e.path == p) = [] := by
        rw [List.filter_eq_nil_iff]
        intro a ha
        have : a ∈ entries := ht2sub.subset (ht3sub.subset ha)
        simpa using habs0 a this
      simp [List.filter_cons, hfilter]

/-- C4 witness: adding the same path twice to the empty store. -/
theorem C4_add_to_history_witness :
    (add_to_history_entries (add_to_history_entries [] "/p" 0 100) "/p" 0 100).filter
        (fun e => e.path == "/p") =
      [{ path := "/p", frequency := 2, last_accessed := 0, first_accessed := 0 }] := by
  have h := C4_add_to_history [] "/p" 0 0 (by simp)
  exact h.2.2.2.2.2 (by intro e he; cases he)

/-- HistoryEntry.calculate_time_decay, utils.rs lines 72-80, expressed
over exact rationals as a function of the elapsed
(now - last_accessed).num_days() value. -/
def calculate_time_decay (days_since_access : Int) (decay_days : Nat) : ℚ :=
  if days_since_access ≤ 0 then 1
  else
    let decay_factor : ℚ := (days_since_access : ℚ) / (decay_days : ℚ)
    max (1 - min decay_factor 1) (1 / 10)

/-- HistoryEntry.calculate_score, utils.rs lines 66-70. -/
def calculate_score (frequency : Nat) (days_since_access : Int) (decay_days : Nat) : ℚ :=
  (frequency : ℚ) * calculate_time_decay days_since_access decay_days

theorem calculate_time_decay_nonneg (d : Int) (dd : Nat) :
    0 ≤ calculate_time_decay d dd := by
  unfold calculate_time_decay
  split
  · norm_num
  · exact le_trans (by norm_num) (le_max_right _ _)

theorem calculate_time_decay_le_one (d : Int) (dd : Nat) (hdd : 0 < dd) :
    calculate_time_decay d dd ≤ 1 := by
  unfold calculate_time_decay
  split
  · norm_num
  · rename_i hd
    dsimp only
    apply max_le
    · have h0 : (0 : ℚ) ≤ min ((d : ℚ) / (dd : ℚ)) 1 := by
        apply le_min
        · apply div_nonneg
          · exact_mod_cast le_of_lt (by omega : (0 : Int) < d)
          · exact_mod_cast Nat.zero_le dd
        · norm_num
      linarith
    · norm_num

theorem calculate_time_decay_antitone (d1 d2 : Int) (dd : Nat) (hdd : 0 < dd)
    (h : d1 ≤ d2) : calculate_time_decay d2 dd ≤ calculate_time_decay d1 dd := by
  by_cases h2 : d2 ≤ 0
  · have h1 : d1 ≤ 0 := le_trans h h2
    unfold calculate_time_decay
    rw [if_pos h1, if_pos h2]
  · by_cases h1 : d1 ≤ 0
    · have h1e : calculate_time_decay d1 dd = 1 := by
        unfold calculate_time_decay
        rw [if_pos h1]
      rw [h1e]
      exact calculate_time_decay_le_one d2 dd hdd
    · unfold calculate_time_decay
      rw [if_neg h1, if_neg h2]
      dsimp only
      have hddq : (0 : ℚ) < (dd : ℚ) := by exact_mod_cast hdd
      have hdiv : (d1 : ℚ) / (dd : ℚ) ≤ (d2 : ℚ) / (dd : ℚ) :=
        (div_le_div_iff_of_pos_right hddq).mpr (by exact_mod_cast h)
      apply max_le_max _ le_rfl
      apply sub_le_sub_left
      exact min_le_min hdiv le_rfl

/-- C6: the FrequencyRecent score equals frequency times a decay factor
that is 1 for non-positive elapsed days and max(0.1, 1 - days/decay_days)
for positive elapsed days; the score is non-decreasing in frequency at
fixed recency and non-increasing in elapsed days at fixed frequency
(stated for any positive decay_days, hence in particular for the default
value get_history_config gives, 30). -/
theorem C6_frequency_recent_score (decay_days : Nat) (hdd : 0 < decay_days) :
    (∀ f d, calculate_score f d decay_days =
      (f : ℚ) * calculate_time_decay d decay_days) ∧
    (∀ d, d ≤ 0 → calculate_time_decay d decay_days = 1) ∧
    (∀ d, 0 < d → calculate_time_decay d decay_days =
      max (1 / 10) (1 - (d : ℚ) / (decay_days : ℚ))) ∧
    (∀ f1 f2 d, f1 ≤ f2 →
      calculate_score f1 d decay_days ≤ calculate_score f2 d decay_days) ∧
    (∀ f d1 d2, d1 ≤ d2 →
      calculate_score f d2 decay_days ≤ calculate_score f d1 decay_days) := by
  refine ⟨fun f d => rfl, ?_, ?_, ?_, ?_⟩
  · intro d hd
    simp [calculate_time_decay, hd]
  · intro d hd
    unfold calculate_time_decay
    rw [if_neg (by omega)]
    dsimp only
    rcases le_or_lt ((d : ℚ) / (decay_days : ℚ)) 1 with hle | hgt
    · rw [min_eq_left hle, max_comm]
    · rw [min_eq_right (le_of_lt hgt)]
      rw [max_eq_right (by norm_num), max_eq_left (by linarith)]
  · intro f1 f2 d hf
    unfold calculate_score
    apply mul_le_mul_of_nonneg_right _ (calculate_time_decay_nonneg d decay_days)
    exact_mod_cast hf
  · intro f d1 d2 hd
    unfold calculate_score
    apply mul_le_mul_of_nonneg_left _ (by exact_mod_cast Nat.zero_le f)
    exact calculate_time_decay_antitone d1 d2 decay_days hdd hd

/-- C6 witness: the score theorem applied at the default decay of 30
days, frequencies 1 and 2, and elapsed days 5 and 40. -/
theorem C6_frequency_recent_score_witness :
    calculate_score 1 5 30 ≤ calculate_score 2 5 30 ∧
    calculate_score 2 40 30 ≤ calculate_score 2 5 30 := by
  have h := C6_frequency_recent_score 30 (by norm_num)
  exact ⟨h.2.2.2.1 1 2 5 (by norm_num), h.2.2.2.2 2 5 40 (by norm_num)⟩

/-- The slice of the filesystem the history store touches. The binary
file is none when absent and some d when present, where d is none when
its bytes fail to decode as bincode and some es when they decode;
binaryReadError set means fs::read on the present binary file fails with
an I/O error. The legacy file is none when absent, some none when
present but not readable as text, and some (some lines) when readable,
already split into lines (the code treats a read_to_string failure the
same way in both of the latter shapes, via if let Ok). legacyBak holds
the renamed backup; pathExists is the Path::exists oracle used by the
migration; saveOk says whether writing the binary file succeeds, and
renameOk whether the fs::rename to the backup name succeeds. -/
structure HistFS where
  binary : Option (Option (List HistoryEntry))
  binaryReadError : Bool
  legacy : Option (Option (List String))
  legacyBak : Option (Option (List String))
  pathExists : String → Bool
  saveOk : Bool
  renameOk : Bool

/-- str::trim, modelled as removal of leading and trailing ASCII
whitespace characters. -/
def rustTrim (s : String) : String :=
  String.mk ((s.data.dropWhile Char.isWhitespace).reverse.dropWhile
    Char.isWhitespace).reverse

/-- HistoryDataProvider.save_history_entries, modes/history/data_provider.rs
lines 106-121. -/
def save_history_entries (fs : HistFS) (entries : List HistoryEntry) :
    Except Unit HistFS :=
  if fs.saveOk then .ok { fs with binary := some (some entries) } else .error ()

/-- HistoryDataProvider.migrate_from_legacy, modes/history/data_provider.rs
lines 76-102: read the legacy newline-delimited file, build one fresh
entry per trimmed line whose path exists, persist them in the binary
format, then attempt to rename the legacy file to the .bak name — the
rename result is discarded (let _ = fs::rename, line 95), so on a rename
failure the legacy file simply stays in place; an unreadable or absent
legacy file yields the empty list with no filesystem effect. -/
def migrate_from_legacy (fs : HistFS) (now : Int) :
    Except Unit (List HistoryEntry × HistFS) :=
  match fs.legacy with
  | some (some lines) =>
    let entries := lines.filterMap (fun line =>
      let path := rustTrim line
      if fs.pathExists path then some (HistoryEntry.new path now) else none)
    match save_history_entries fs entries with
    | .error e => .error e
    | .ok fs1 =>
      if fs.renameOk then
        .ok (entries, { fs1 with legacy := none, legacyBak := fs.legacy })
      else .ok (entries, fs1)
  | some none => .ok ([], fs)
  | none => .ok ([], fs)

/-- HistoryDataProvider.load_history_entries, modes/history/data_provider.rs
lines 40-72: when the binary file exists, fs::read it — the question-mark
operator on line 45 propagates an I/O read error to the caller — and on
decode failure fall back to the legacy migration; when it is absent, fall
back to the legacy migration if the legacy file exists; any migration
failure degrades to the empty list. -/
def load_history_entries (fs : HistFS) (now : Int) :
    Except Unit (List HistoryEntry × HistFS) :=
  match fs.binary with
  | some decoded =>
    if fs.binaryReadError then .error ()
    else
      match decoded with
      | some entries => .ok (entries, fs)
      | none =>
        match migrate_from_legacy fs now with
        | .ok r => .ok r
        | .error _ => .ok ([], fs)
  | none =>
    if fs.legacy.isSome then
      match migrate_from_legacy fs now with
      | .ok r => .ok r
      | .error _ => .ok ([], fs)
    else .ok ([], fs)

/-- HistoryDataProvider.add_to_history, modes/history/data_provider.rs
lines 125-155: load, mutate the entry list, save. -/
def add_to_history (fs : HistFS) (now : Int) (path : String) : Except Unit HistFS :=
  match load_history_entries fs now with
  | .error e => .error e
  | .ok (entries, fs1) =>
    save_history_entries fs1
      (add_to_history_entries entries path now get_history_config.max_entries)

/-- A filesystem whose binary history file exists but cannot be read,
with no legacy file: neither source is usable. -/
def fsReadErr : HistFS :=
  { binary := some (some [])
    binaryReadError := true
    legacy := none
    legacyBak := none
    pathExists := fun _ => false
    saveOk := true
    renameOk := true }

/-- C7 counterexample: with the binary history file present but
unreadable and no legacy file, neither source is usable, yet
load_history_entries propagates the read error (the question-mark on
fs::read, modes/history/data_provider.rs line 45) instead of returning
the empty list: the claim that loading never surfaces a fatal error
fails here. -/
theorem C7_counterexample :
    load_history_entries fsReadErr 0 = .error () ∧
    ∀ es fs1, load_history_entries fsReadErr 0 ≠ .ok (es, fs1) := by
  refine ⟨rfl, ?_⟩
  intro es fs1 h
  rw [show load_history_entries fsReadErr 0 = .error () from rfl] at h
  cases h

/-- C7 (amended): when the binary history file is absent or present,
readable but undecodable, and the legacy text file is readable and
saving succeeds, loading returns one fresh frequency-1 entry per trimmed
line whose path exists, persists exactly those entries in the binary
format, and attempts to rename the legacy file to the backup name,
ignoring a rename failure (the legacy file then stays in place); in the
same binary-file states, an absent or unreadable legacy file or a
failing save degrades to the empty list without error, and loading is
error-free whenever the binary file is absent or readable — but an I/O
error reading a present binary file is propagated to the caller as a
fatal error. -/
theorem C7_load_migration (fs : HistFS) (now : Int) :
    ((fs.binary = none ∨ (fs.binary = some none ∧ fs.binaryReadError = false)) →
      ∀ lines, fs.legacy = some (some lines) → fs.saveOk = true →
        ∃ fs1, load_history_entries fs now =
            .ok (lines.filterMap (fun line =>
              if fs.pathExists (rustTrim line) then
                some { path := rustTrim line, frequency := 1,
                       last_accessed := now, first_accessed := now }
              else none), fs1) ∧
          fs1.binary = some (some (lines.filterMap (fun line =>
            if fs.pathExists (rustTrim line) then
              some { path := rustTrim line, frequency := 1,
                     last_accessed := now, first_accessed := now }
            else none))) ∧
          (fs.renameOk = true → fs1.legacy = none ∧ fs1.legacyBak = some (some lines)) ∧
          (fs.renameOk = false → fs1.legacy = fs.legacy ∧
            fs1.legacyBak = fs.legacyBak)) ∧
    ((fs.binary = none ∨ (fs.binary = some none ∧ fs.binaryReadError = false)) →
      (fs.legacy = none ∨ fs.legacy = some none ∨ fs.saveOk = false) →
        ∃ fs1, load_history_entries fs now = .ok ([], fs1)) ∧
    ((fs.binary = none ∨ fs.binaryReadError = false) →
      ∃ r, load_history_entries fs now = .ok r) ∧
    (∀ d, fs.binary = some d → fs.binaryReadError = true →
      load_history_entries fs now = .error ()) := by
  obtain ⟨bin, bre, leg, bak, pe, sv, rn⟩ := fs
  refine ⟨?_, ?_, ?_, ?_⟩
  · rintro hbin lines hleg hsave
    have hlg : leg = some (some lines) := hleg
    subst hlg
    have hsv : sv = true := hsave
    subst hsv
    rcases hbin with hb | ⟨hb, hbre⟩
    · have hbe : bin = none := hb
      subst hbe
      cases rn with
      | true => exact ⟨_, rfl, rfl, fun _ => ⟨rfl, rfl⟩, fun h => by simp at h⟩
      | false => exact ⟨_, rfl, rfl, fun h => by simp at h, fun _ => ⟨rfl, rfl⟩⟩
    · have hbe : bin = some none := hb
      subst hbe
      have hbre2 : bre = false := hbre
      subst hbre2
      cases rn with
      | true => exact ⟨_, rfl, rfl, fun _ => ⟨rfl, rfl⟩, fun h => by simp at h⟩
      | false => exact ⟨_, rfl, rfl, fun h => by simp at h, fun _ => ⟨rfl, rfl⟩⟩
  · rintro hbin hleg
    rcases hbin with hb | ⟨hb, hbre⟩
    · have hbe : bin = none := hb
      subst hbe
      rcases hleg with hl | hl | hl
      · have h2 : leg = none := hl
        subst h2
        exact ⟨_, rfl⟩
      · have h2 : leg = some none := hl
        subst h2
        exact ⟨_, rfl⟩
      · have h2 : sv = false := hl
        subst h2
        cases leg with
        | none => exact ⟨_, rfl⟩
        | some lg =>
          cases lg with
          | none => exact ⟨_, rfl⟩
          | some lines => exact ⟨_, rfl⟩
    · have hbe : bin = some none := hb
      subst hbe
      have hbre2 : bre = false := hbre
      subst hbre2
      rcases hleg with hl | hl | hl
      · have h2 : leg = none := hl
        subst h2
        exact ⟨_, rfl⟩
      · have h2 : leg = some none := hl
        subst h2
        exact ⟨_, rfl⟩
      · have h2 : sv = false := hl
        subst h2
        cases leg with
        | none => exact ⟨_, rfl⟩
        | some lg =>
          cases lg with
          | none => exact ⟨_, rfl⟩
          | some lines => exact ⟨_, rfl⟩
  · rintro hbin
    rcases hbin with hb | hb
    · have hbe : bin = none := hb
      subst hbe
      cases leg with
      | none => exact ⟨_, rfl⟩
      | some lg =>
        cases lg with
        | none => exact ⟨_, rfl⟩
        | some lines =>
          cases sv with
          | true =>
            cases rn with
            | true => exact ⟨_, rfl⟩
            | false => exact ⟨_, rfl⟩
          | false => exact ⟨_, rfl⟩
    · have hbre : bre = false := hb
      subst hbre
      cases bin with
      | none =>
        cases leg with
        | none => exact ⟨_, rfl⟩
        | some lg =>
          cases lg with
          | none => exact ⟨_, rfl⟩
          | some lines =>
            cases sv with
            | true =>
              cases rn with
              | true => exact ⟨_, rfl⟩
              | false => exact ⟨_, rfl⟩
            | false => exact ⟨_, rfl⟩
      | some d =>
        cases d with
        | some entries => exact ⟨_, rfl⟩
        | none =>
          cases leg with
          | none => exact ⟨_, rfl⟩
          | some lg =>
            cases lg with
            | none => exact ⟨_, rfl⟩
            | some lines =>
              cases sv with
              | true =>
                cases rn with
                | true => exact ⟨_, rfl⟩
                | false => exact ⟨_, rfl⟩
              | false => exact ⟨_, rfl⟩
  · rintro d hbin hbre
    have hbe : bin = some d := hbin
    subst hbe
    have hbre2 : bre = true := hbre
    subst hbre2
    rfl

/-- A concrete filesystem with no binary file and a two-line legacy
file, one line naming an existing path and one a vanished path. -/
def fsMig : HistFS :=
  { binary := none
    binaryReadError := false
    legacy := some (some ["/a", "/gone"])
    legacyBak := none
    pathExists := fun p => p == "/a"
    saveOk := true
    renameOk := true }

/-- C7 witness: migration from the concrete legacy file, with the rename
succeeding. -/
theorem C7_load_migration_witness :
    ∃ fs1, load_history_entries fsMig 7 =
        .ok ([{ path := "/a", frequency := 1, last_accessed := 7,
                first_accessed := 7 }], fs1) ∧
      fs1.binary = some (some [{ path := "/a", frequency := 1,
                                 last_accessed := 7, first_accessed := 7 }]) ∧
      fs1.legacy = none ∧ fs1.legacyBak = some (some ["/a", "/gone"]) := by
  have h := C7_load_migration fsMig 7
  have h2 := h.1 (Or.inl rfl) ["/a", "/gone"] rfl rfl
  obtain ⟨fs1, he, hb, hrn, _⟩ := h2
  obtain ⟨hl, hbk⟩ := hrn rfl
  refine ⟨fs1, ?_, ?_, hl, hbk⟩
  · rw [he]
    rfl
  · rw [hb]
    rfl

/-- Codepoint-wise (equivalently, UTF-8 byte-wise) lexicographic strict
order on character lists: str::cmp returning Less. -/
def listCharLt : List Char → List Char → Bool
  | [], [] => false
  | [], _ :: _ => true
  | _ :: _, [] => false
  | a :: as, b :: bs =>
    if a.toNat < b.toNat then true
    else if b.toNat < a.toNat then false
    else listCharLt as bs

/-- str::to_lowercase, modelled by per-character ASCII lowercasing. -/
def rustToLowercase (s : String) : String :=
  String.mk (s.data.map Char.toLower)

/-- str::contains with a string needle: substring search. A valid UTF-8
byte-level match always falls on character boundaries, so this is
character-list infix containment. -/
def listContains (needle : List Char) : List Char → Bool
  | [] => needle.isPrefixOf []
  | c :: t => needle.isPrefixOf (c :: t) || listContains needle t

def strContains (hay needle : String) : Bool :=
  listContains needle.data hay.data

/-- str::starts_with for the single character used by the hidden-file
rule. -/
def starts_with_dot (name : String) : Bool :=
  match name.data with
  | [] => false
  | c :: _ => c == '.'

/-- Stable insertion of an element in front of the first element it does
not come strictly after. -/
def stableInsert {α : Type} (le : α → α → Bool) (x : α) : List α → List α
  | [] => [x]
  | y :: ys => if le x y then x :: y :: ys else y :: stableInsert le x ys

/-- Stable sort by a total preorder, the semantics of Vec::sort_by: the
output of any stable sort by a fixed total preorder is unique. -/
def stableSort {α : Type} (le : α → α → Bool) : List α → List α
  | [] => []
  | x :: xs => stableInsert le x (stableSort le xs)

/-- The comparator of FilesystemService.load_directory, services/
filesystem.rs lines 42-46, in at-most form: directories sort before
files; within a kind, byte-wise name order. -/
def fileOrder (a b : FileItem) : Bool :=
  if a.is_dir && !b.is_dir then true
  else if !a.is_dir && b.is_dir then false
  else !(listCharLt b.name.data a.name.data)

/-- FilesystemService.load_directory, services/filesystem.rs lines 15-50
(non-Windows, so the drives view is never taken), parameterised by the
raw directory entries the filesystem returns; the synthetic current
directory entry is prepended before the sorted real entries. -/
def load_directory (current_dir : String) (entries : List FileItem) : List FileItem :=
  { name := ".", path := current_dir, is_dir := true } :: stableSort fileOrder entries

/-- The fields of app_state.rs AppState, lines 17-28, that filtering,
selection and directory navigation read and write, with the ratatui
ListState selection and offset inlined; the dir_positions HashMap is an
association list with insert-or-replace. -/
structure AppState where
  search_input : String
  is_searching : Bool
  show_hidden_files : Bool
  current_dir : String
  files : List DisplayItem
  filtered_files : List Nat
  selected : Option Nat
  offset : Nat
  dir_positions : List (String × Nat)
  deriving DecidableEq, Repr

/-- AppState.should_show_item, app_state.rs lines 165-194. -/
def should_show_item (s : AppState) (item : DisplayItem) : Bool :=
  match item with
  | .History _ => true
  | .File _ =>
    if starts_with_dot item.get_display_name then s.show_hidden_files else true

/-- AppState.reset_filter, app_state.rs lines 99-110. -/
def reset_filter (s : AppState) : AppState :=
  { s with
    filtered_files := (s.files.enum.filter (fun q => should_show_item s q.2)).map Prod.fst
    selected := none }

/-- AppState.apply_search_filter, app_state.rs lines 114-146. -/
def apply_search_filter (s : AppState) : AppState :=
  if s.search_input = "" then
    { s with
      filtered_files :=
        (s.files.enum.filter (fun q => should_show_item s q.2)).map Prod.fst
      selected := none }
  else
    { s with
      filtered_files := (s.files.enum.filter (fun q =>
        should_show_item s q.2 &&
          strContains (rustToLowercase q.2.get_display_name)
            (rustToLowercase s.search_input))).map Prod.fst
      selected := none }

/-- AppState.toggle_hidden_files, app_state.rs lines 198-207. -/
def toggle_hidden_files (s : AppState) : AppState :=
  apply_search_filter { s with show_hidden_files := !s.show_hidden_files }

/-- AppState.load_file_items, app_state.rs lines 90-95. -/
def load_file_items (s : AppState) (file_items : List FileItem) : AppState :=
  reset_filter { s with files := file_items.map DisplayItem.File }

/-- AppState.get_selected_item, app_state.rs lines 150-161. -/
def get_selected_item (s : AppState) : Option DisplayItem :=
  match s.selected with
  | none => none
  | some sel =>
    match s.filtered_files.get? sel with
    | none => none
    | some file_index => s.files.get? file_index

theorem mem_filtered_iff (files : List DisplayItem) (pred : DisplayItem → Bool)
    (i : Nat) :
    (i ∈ (files.enum.filter (fun q => pred q.2)).map Prod.fst) ↔
      ∃ item, files.get? i = some item ∧ pred item = true := by
  constructor
  · intro h
    obtain ⟨⟨j, item⟩, hmem, hj⟩ := List.mem_map.mp h
    obtain ⟨henum, hpred⟩ := List.mem_filter.mp hmem
    have hj2 : j = i := hj
    subst hj2
    have hget : files[j]? = some item := List.mk_mem_enum_iff_getElem?.mp henum
    exact ⟨item, by rw [List.get?_eq_getElem?]; exact hget, by simpa using hpred⟩
  · rintro ⟨item, hget, hpred⟩
    apply List.mem_map.mpr
    refine ⟨(i, item), List.mem_filter.mpr ⟨List.mk_mem_enum_iff_getElem?.mpr ?_,
      by simpa using hpred⟩, rfl⟩
    rw [← List.get?_eq_getElem?]
    exact hget

/-- An item the hidden-file rule targets: a File entry whose display name
starts with a dot. -/
def isHiddenFile (item : DisplayItem) : Bool :=
  match item with
  | .File f => starts_with_dot f.name
  | .History _ => false

theorem mem_reset_filter_iff (s : AppState) (i : Nat) :
    i ∈ (reset_filter s).filtered_files ↔
      ∃ item, s.files.get? i = some item ∧ should_show_item s item = true := by
  show i ∈ (s.files.enum.filter (fun q => should_show_item s q.2)).map Prod.fst ↔ _
  exact mem_filtered_iff _ _ _

theorem mem_apply_search_filter_iff (s : AppState) (i : Nat) :
    i ∈ (apply_search_filter s).filtered_files ↔
      ∃ item, s.files.get? i = some item ∧ should_show_item s item = true ∧
        (s.search_input = "" ∨
          strContains (rustToLowercase item.get_display_name)
            (rustToLowercase s.search_input) = true) := by
  unfold apply_search_filter
  by_cases hempty : s.search_input = ""
  · rw [if_pos hempty]
    show i ∈ (s.files.enum.filter (fun q => should_show_item s q.2)).map Prod.fst ↔ _
    rw [mem_filtered_iff]
    constructor
    · rintro ⟨item, hget, hpred⟩
      exact ⟨item, hget, hpred, Or.inl hempty⟩
    · rintro ⟨item, hget, hpred, _⟩
      exact ⟨item, hget, hpred⟩
  · rw [if_neg hempty]
    show i ∈ (s.files.enum.filter (fun q => should_show_item s q.2 &&
        strContains (rustToLowercase q.2.get_display_name)
          (rustToLowercase s.search_input))).map Prod.fst ↔ _
    refine Iff.trans (mem_filtered_iff s.files (fun item =>
      should_show_item s item &&
        strContains (rustToLowercase item.get_display_name)
          (rustToLowercase s.search_input)) i) ?_
    constructor
    · rintro ⟨item, hget, hpred⟩
      rw [Bool.and_eq_true] at hpred
      exact ⟨item, hget, hpred.1, Or.inr hpred.2⟩
    · rintro ⟨item, hget, hshow2, he | hc⟩
      · exact absurd he hempty
      · exact ⟨item, hget, by rw [Bool.and_eq_true]; exact ⟨hshow2, hc⟩⟩

/-- C10: while show_hidden_files is false, both filter recomputations
exclude every dot-named File item regardless of the search text, and the
directory loader synthetic current-directory entry (named a single dot,
at index 0) is excluded with them; History items are never excluded by
the hidden-file rule, their membership being exactly the search-text
condition; after toggling show_hidden_files on, a File item membership is
exactly the search-text condition, dot-named or not. -/
theorem C10_hidden_file_filter (s : AppState) (hhid : s.show_hidden_files = false) :
    (∀ i ∈ (reset_filter s).filtered_files, ∀ f,
      s.files.get? i = some (.File f) → starts_with_dot f.name = false) ∧
    (∀ i ∈ (apply_search_filter s).filtered_files, ∀ f,
      s.files.get? i = some (.File f) → starts_with_dot f.name = false) ∧
    (∀ i e, s.files.get? i = some (.History e) →
      (i ∈ (apply_search_filter s).filtered_files ↔
        (s.search_input = "" ∨
          strContains (rustToLowercase (DisplayItem.History e).get_display_name)
            (rustToLowercase s.search_input) = true))) ∧
    (∀ i f, s.files.get? i = some (.File f) →
      (i ∈ (toggle_hidden_files s).filtered_files ↔
        (s.search_input = "" ∨
          strContains (rustToLowercase f.name)
            (rustToLowercase s.search_input) = true))) ∧
    (∀ cwd entries s2, s2.files = (load_directory cwd entries).map DisplayItem.File →
      s2.show_hidden_files = false →
      s2.files.get? 0 = some (.File { name := ".", path := cwd, is_dir := true }) ∧
        0 ∉ (reset_filter s2).filtered_files) := by
  have hshow : ∀ f, should_show_item s (DisplayItem.File f) = true →
      starts_with_dot f.name = false := by
    intro f h
    by_cases hdot : starts_with_dot f.name
    · rw [should_show_item] at h
      simp only [DisplayItem.get_display_name] at h
      rw [if_pos hdot, hhid] at h
      cases h
    · simpa using hdot
  refine ⟨?_, ?_, ?_, ?_, ?_⟩
  · intro i hi f hf
    obtain ⟨item, hget, hpred⟩ := (mem_reset_filter_iff s i).mp hi
    rw [hf] at hget
    obtain rfl : item = DisplayItem.File f := by cases hget; rfl
    exact hshow f hpred
  · intro i hi f hf
    obtain ⟨item, hget, hpred, _⟩ := (mem_apply_search_filter_iff s i).mp hi
    rw [hf] at hget
    obtain rfl : item = DisplayItem.File f := by cases hget; rfl
    exact hshow f hpred
  · intro i e hget
    rw [mem_apply_search_filter_iff]
    constructor
    · rintro ⟨item, hget2, _, hsearch⟩
      rw [hget] at hget2
      obtain rfl : item = DisplayItem.History e := by cases hget2; rfl
      exact hsearch
    · intro hsearch
      exact ⟨DisplayItem.History e, hget, by rw [should_show_item], hsearch⟩
  · intro i f hget
    have hmem := mem_apply_search_filter_iff
      { s with show_hidden_files := !s.show_hidden_files } i
    have hgoal : i ∈ (toggle_hidden_files s).filtered_files ↔
        ∃ item, s.files.get? i = some item ∧
          should_show_item { s with show_hidden_files := !s.show_hidden_files }
            item = true ∧
          (s.search_input = "" ∨
            strContains (rustToLowercase item.get_display_name)
              (rustToLowercase s.search_input) = true) := hmem
    rw [hgoal]
    constructor
    · rintro ⟨item, hget2, _, hsearch⟩
      rw [hget] at hget2
      obtain rfl : item = DisplayItem.File f := by cases hget2; rfl
      exact hsearch
    · intro hsearch
      refine ⟨DisplayItem.File f, hget, ?_, hsearch⟩
      rw [should_show_item]
      simp only [DisplayItem.get_display_name]
      split
      · simp [hhid]
      · rfl
  · intro cwd entries s2 hfiles hhid2
    constructor
    · rw [hfiles]
      rfl
    · intro hmem
      obtain ⟨item, hget, hpred⟩ := (mem_reset_filter_iff s2 0).mp hmem
      rw [hfiles] at hget
      unfold load_directory at hget
      have hitem : item = DisplayItem.File { name := ".", path := cwd, is_dir := true } := by
        simpa using hget.symm
      subst hitem
      rw [should_show_item] at hpred
      simp only [DisplayItem.get_display_name] at hpred
      rw [if_pos (by rfl), hhid2] at hpred
      cases hpred

/-- A concrete directory-mode state whose files are the synthetic dot
entry, a dot-named file and a visible file, with hidden files off. -/
def s0C10 : AppState :=
  { search_input := ""
    is_searching := false
    show_hidden_files := false
    current_dir := "/d"
    files := [DisplayItem.File { name := ".", path := "/d", is_dir := true },
              DisplayItem.File { name := ".hidden", path := "/d/.hidden", is_dir := false },
              DisplayItem.File { name := "vis", path := "/d/vis", is_dir := false }]
    filtered_files := []
    selected := none
    offset := 0
    dir_positions := [] }

/-- C10 witness: the dot-named file at index 1 of the concrete state is
excluded from the recomputed filter. -/
theorem C10_hidden_file_filter_witness :
    (1 : Nat) ∉ (reset_filter s0C10).filtered_files := by
  intro hmem
  have h := C10_hidden_file_filter s0C10 rfl
  have hdot := h.1 1 hmem { name := ".hidden", path := "/d/.hidden", is_dir := false } rfl
  exact absurd hdot (by decide)

/-- utils.rs AppMode, lines 35-39. -/
inductive AppMode where
  | Normal
  | History
  deriving DecidableEq, Repr

/-- modes/mod.rs ModeAction. -/
inductive ModeAction where
  | Stay
  | Switch (m : AppMode)
  | Exit (f : Option FileItem)
  deriving DecidableEq, Repr

/-- Filesystem oracle for directory navigation: read_dir results (none
for a read error) and the Path::is_dir test. -/
structure FsEnv where
  listDir : String → Option (List FileItem)
  isDir : String → Bool

/-- HashMap::insert on the association-list model of dir_positions. -/
def insertPos (l : List (String × Nat)) (k : String) (v : Nat) : List (String × Nat) :=
  if l.any (fun q => q.1 == k) then l.map (fun q => if q.1 == k then (k, v) else q)
  else (k, v) :: l

/-- HashMap::get on the association-list model of dir_positions. -/
def lookupPos (l : List (String × Nat)) (k : String) : Option Nat :=
  (l.find? (fun q => q.1 == k)).map Prod.snd

/-- FileListDataProvider.save_position, modes/normal/data_provider.rs
lines 169-175. -/
def save_position (s : AppState) : AppState :=
  match s.selected with
  | some sel => { s with dir_positions := insertPos s.dir_positions s.current_dir sel }
  | none => s

/-- FileListDataProvider.restore_position, modes/normal/data_provider.rs
lines 177-195. -/
def restore_position (s : AppState) : AppState :=
  match lookupPos s.dir_positions s.current_dir with
  | some saved =>
    if saved < s.filtered_files.length then { s with selected := some saved }
    else if s.filtered_files.length ≠ 0 then
      { s with selected := some (s.filtered_files.length - 1) }
    else { s with selected := none }
  | none => { s with selected := none }

/-- GlobalPreviewState.clear_preview, global_preview_state.rs lines
58-66. -/
def clear_preview (_pv : PreviewState) : PreviewState :=
  { content := ["No file selected"], title := "Preview", scroll_offset := 0 }

/-- FileListDataProvider.load_data, modes/normal/data_provider.rs lines
162-167: a directory read error propagates as an error. -/
def FileListDataProvider.load_data (env : FsEnv) (s : AppState) :
    Except Unit AppState :=
  match env.listDir s.current_dir with
  | none => .error ()
  | some entries =>
    .ok (apply_search_filter (load_file_items s (load_directory s.current_dir entries)))

/-- FileListDataProvider.on_directory_changed, modes/normal/
data_provider.rs lines 197-212: clear the search, reload, restore the
remembered position, clear the preview. -/
def on_directory_changed (env : FsEnv) (s : AppState) (pv : PreviewState) :
    Except Unit (AppState × PreviewState) :=
  let s1 := { s with search_input := "", is_searching := false }
  match FileListDataProvider.load_data env s1 with
  | .error e => .error e
  | .ok s2 => .ok (restore_position s2, clear_preview pv)

/-- FileListDataProvider.navigate_into_directory, modes/normal/
data_provider.rs lines 119-135. -/
def FileListDataProvider.navigate_into_directory (env : FsEnv) (s : AppState)
    (pv : PreviewState) :
    Except Unit ((AppState × PreviewState) × Option ModeAction) :=
  match get_selected_item s with
  | some file =>
    if file.is_directory env.isDir then
      let s1 := save_position s
      let s2 := { s1 with current_dir := file.get_path }
      match on_directory_changed env s2 pv with
      | .error e => .error e
      | .ok w => .ok (w, none)
    else .ok ((s, pv), none)
  | none => .ok ((s, pv), none)

/-- The state history mode operates on: the app state plus the persisted
store and the current time. -/
structure HistoryWorld where
  state : AppState
  fs : HistFS
  now : Int

/-- HistoryDataProvider.navigate_into_directory, modes/history/
data_provider.rs lines 218-229. -/
def HistoryDataProvider.navigate_into_directory (env : FsEnv) (w : HistoryWorld) :
    Except Unit (HistoryWorld × Option ModeAction) :=
  match get_selected_item w.state with
  | some item =>
    if item.is_directory env.isDir then
      match add_to_history w.fs w.now item.get_path with
      | .error e => .error e
      | .ok fs1 =>
        let w2 : HistoryWorld :=
          { w with
            fs := fs1
            state := { w.state with current_dir := item.get_path } }
        .ok (w2, some (.Switch .Normal))
    else .ok (w, some (.Switch .Normal))
  | none => .ok (w, some (.Switch .Normal))

/-- A concrete history-mode world with nothing selected. -/
def hw0 : HistoryWorld :=
  { state := { search_input := ""
               is_searching := false
               show_hidden_files := false
               current_dir := "/d"
               files := []
               filtered_files := []
               selected := none
               offset := 0
               dir_positions := [] }
    fs := { binary := none
            binaryReadError := false
            legacy := none
            legacyBak := none
            pathExists := fun _ => false
            saveOk := true
            renameOk := true }
    now := 0 }

/-- A trivial filesystem oracle. -/
def env0 : FsEnv := { listDir := fun _ => none, isDir := fun _ => false }

/-- C3 counterexample: in history mode with nothing selected,
navigate_into_directory leaves all state unchanged but still signals a
switch to directory-listing mode, instead of being a no-op that signals
no mode switch. -/
theorem C3_counterexample :
    HistoryDataProvider.navigate_into_directory env0 hw0 =
      .ok (hw0, some (.Switch .Normal)) ∧
    some (ModeAction.Switch AppMode.Normal) ≠ (none : Option ModeAction) := by
  exact ⟨rfl, by simp⟩

theorem restore_position_shape (s : AppState) :
    ∃ sel, restore_position s = { s with selected := sel } := by
  unfold restore_position
  split
  · split_ifs <;> exact ⟨_, rfl⟩
  · exact ⟨_, rfl⟩

theorem apply_search_filter_shape (s : AppState) :
    ∃ ff, apply_search_filter s = { s with filtered_files := ff, selected := none } := by
  unfold apply_search_filter
  split <;> exact ⟨_, rfl⟩

theorem load_data_eq (env : FsEnv) (s : AppState) (entries : List FileItem)
    (h : env.listDir s.current_dir = some entries) :
    FileListDataProvider.load_data env s =
      .ok (apply_search_filter (load_file_items s
        (load_directory s.current_dir entries))) := by
  unfold FileListDataProvider.load_data
  rw [h]

theorem on_directory_changed_eq (env : FsEnv) (s : AppState) (pv : PreviewState)
    (entries : List FileItem) (h : env.listDir s.current_dir = some entries) :
    on_directory_changed env s pv =
      .ok (restore_position (apply_search_filter (load_file_items
        { s with search_input := "", is_searching := false }
        (load_directory s.current_dir entries))), clear_preview pv) := by
  unfold on_directory_changed
  dsimp only
  rw [load_data_eq env { s with search_input := "", is_searching := false } entries
    (by exact h)]

/-- The state from which the directory-listing reload starts after
navigate_into_directory saves the position and changes the directory. -/
def dirChangedBase (s : AppState) (path : String) : AppState :=
  { save_position s with
    current_dir := path
    search_input := ""
    is_searching := false }

/-- C3 (amended): with no selection or a non-directory selection,
directory-listing mode is a strict no-op (state unchanged, no mode
action), while history mode also leaves all state unchanged but still
signals a switch to directory-listing mode at the unchanged current
directory, recording no visit; when the selected item is a directory,
directory-listing mode changes the current directory, clears the search,
reloads the listing in place and stays in mode, and history mode records
the visit in the store and signals the switch rooted at that path. -/
theorem C3_navigate_into_directory (env : FsEnv) (s : AppState) (pv : PreviewState)
    (w : HistoryWorld) :
    (get_selected_item s = none →
      FileListDataProvider.navigate_into_directory env s pv = .ok ((s, pv), none)) ∧
    (∀ it, get_selected_item s = some it → it.is_directory env.isDir = false →
      FileListDataProvider.navigate_into_directory env s pv = .ok ((s, pv), none)) ∧
    (get_selected_item w.state = none →
      HistoryDataProvider.navigate_into_directory env w =
        .ok (w, some (.Switch .Normal))) ∧
    (∀ it, get_selected_item w.state = some it → it.is_directory env.isDir = false →
      HistoryDataProvider.navigate_into_directory env w =
        .ok (w, some (.Switch .Normal))) ∧
    (∀ it, get_selected_item s = some it → it.is_directory env.isDir = true →
      ∀ entries, env.listDir it.get_path = some entries →
      ∃ s2, FileListDataProvider.navigate_into_directory env s pv =
          .ok ((s2, clear_preview pv), none) ∧
        s2.current_dir = it.get_path ∧ s2.search_input = "" ∧
        s2.is_searching = false ∧
        s2.files = (load_directory it.get_path entries).map DisplayItem.File) ∧
    (∀ it, get_selected_item w.state = some it → it.is_directory env.isDir = true →
      ∀ entries fs1, load_history_entries w.fs w.now = .ok (entries, fs1) →
      fs1.saveOk = true →
      ∃ w2, HistoryDataProvider.navigate_into_directory env w =
          .ok (w2, some (.Switch .Normal)) ∧
        w2.state.current_dir = it.get_path ∧
        w2.fs.binary =
          some (some (add_to_history_entries entries it.get_path w.now 100))) := by
  refine ⟨?_, ?_, ?_, ?_, ?_, ?_⟩
  · intro hsel
    unfold FileListDataProvider.navigate_into_directory
    rw [hsel]
  · intro it hsel hdir
    unfold FileListDataProvider.navigate_into_directory
    rw [hsel]
    simp [hdir]
  · intro hsel
    unfold HistoryDataProvider.navigate_into_directory
    rw [hsel]
  · intro it hsel hdir
    unfold HistoryDataProvider.navigate_into_directory
    rw [hsel]
    simp [hdir]
  · intro it hsel hdir entries hls
    have hresult : FileListDataProvider.navigate_into_directory env s pv =
        .ok ((restore_position (apply_search_filter (load_file_items
          (dirChangedBase s it.get_path)
          (load_directory it.get_path entries))), clear_preview pv), none) := by
      unfold FileListDataProvider.navigate_into_directory
      rw [hsel]
      dsimp only
      rw [if_pos (by rw [hdir])]
      rw [on_directory_changed_eq env { save_position s with current_dir := it.get_path }
        pv entries (by exact hls)]
      rfl
    obtain ⟨ff, hasf⟩ := apply_search_filter_shape (load_file_items
      (dirChangedBase s it.get_path) (load_directory it.get_path entries))
    obtain ⟨sel2, hrp⟩ := restore_position_shape (apply_search_filter (load_file_items
      (dirChangedBase s it.get_path) (load_directory it.get_path entries)))
    refine ⟨_, hresult, ?_, ?_, ?_, ?_⟩ <;>
      rw [hrp, hasf] <;> rfl
  · intro it hsel hdir entries fs1 hload hsave
    have hadd : add_to_history w.fs w.now it.get_path =
        .ok { fs1 with
              binary := some (some (add_to_history_entries entries it.get_path w.now 100)) } := by
      unfold add_to_history
      rw [hload]
      dsimp only
      unfold save_history_entries
      rw [if_pos (by rw [hsave])]
      rfl
    refine ⟨{ w with
              fs := { fs1 with
                      binary := some (some (add_to_history_entries entries
                        it.get_path w.now 100)) }
              state := { w.state with current_dir := it.get_path } }, ?_, rfl, rfl⟩
    unfold HistoryDataProvider.navigate_into_directory
    rw [hsel]
    dsimp only
    rw [if_pos (by rw [hdir])]
    rw [hadd]

/-- A concrete history-mode world with a directory entry selected. -/
def hw1 : HistoryWorld :=
  { state := { search_input := ""
               is_searching := false
               show_hidden_files := false
               current_dir := "/d"
               files := [DisplayItem.History
                 { path := "/x", frequency := 1, last_accessed := 0, first_accessed := 0 }]
               filtered_files := [0]
               selected := some 0
               offset := 0
               dir_positions := [] }
    fs := { binary := some (some [])
            binaryReadError := false
            legacy := none
            legacyBak := none
            pathExists := fun _ => false
            saveOk := true
            renameOk := true }
    now := 5 }

/-- A filesystem oracle in which every path is a directory. -/
def env1 : FsEnv := { listDir := fun _ => some [], isDir := fun _ => true }

/-- C3 witness: the amended theorem applied to a concrete history world
with a directory entry selected: the visit is recorded and the switch is
signalled rooted at that path. -/
theorem C3_navigate_into_directory_witness :
    ∃ w2, HistoryDataProvider.navigate_into_directory env1 hw1 =
        .ok (w2, some (.Switch .Normal)) ∧
      w2.state.current_dir = "/x" ∧
      w2.fs.binary = some (some (add_to_history_entries [] "/x" 5 100)) := by
  have h := C3_navigate_into_directory env1 hw1.state
    ⟨["No file selected"], "Preview", 0⟩ hw1
  have h6 := h.2.2.2.2.2 (DisplayItem.History
      { path := "/x", frequency := 1, last_accessed := 0, first_accessed := 0 })
    rfl rfl [] hw1.fs rfl rfl
  obtain ⟨w2, he, hc, hb⟩ := h6
  exact ⟨w2, he, hc, hb⟩

/-- Path::extension: the part of the file name after its last dot; none
when there is no dot, or when the only dot is the leading one of a
dotfile. -/
def rustExtension (p : String) : Option String :=
  let name := rustFileName p
  if name = "" then none
  else
    let parts := (splitOnChar (Char.ofNat 46) name.data).map String.mk
    match parts with
    | [] => none
    | [_] => none
    | first :: _ =>
      if first = "" ∧ parts.length = 2 then none else parts.getLast?

/-- FileItem.is_image, utils.rs lines 148-173. -/
def FileItem.is_image (f : FileItem) : Bool :=
  if f.is_dir then false
  else
    match rustExtension f.path with
    | none => false
    | some ext =>
      let e := rustToLowercase ext
      e == "jpg" || e == "jpeg" || e == "png" || e == "gif" || e == "bmp" ||
        e == "webp" || e == "tiff" || e == "tif" || e == "svg" || e == "ico" ||
        e == "avif"

/-- FileItem.is_pdf, utils.rs lines 175-187. -/
def FileItem.is_pdf (f : FileItem) : Bool :=
  if f.is_dir then false
  else
    match rustExtension f.path with
    | none => false
    | some ext => rustToLowercase ext == "pdf"

/-- The five preview generators of services/preview. -/
inductive GeneratorKind where
  | directory
  | image
  | pdf
  | text
  | binary
  deriving DecidableEq, Repr

/-- The first-match-wins dispatch of
PreviewGenerator.generate_preview_content, services/preview/
preview_generator.rs lines 59-79, over the can_handle tests of the four
generators (directory_generator.rs line 16, utils.rs is_image/is_pdf,
text_generator.rs line 16); textReadable is whether fs::read_to_string
succeeds. -/
def chosen_generator (f : FileItem) (textReadable : Bool) : GeneratorKind :=
  if f.is_dir then .directory
  else if f.is_image then .image
  else if f.is_pdf then .pdf
  else if textReadable then .text
  else .binary

/-- str::lines: split at each newline, dropping one carriage return
immediately before a newline and discarding a final empty segment. -/
def rustLines (s : String) : List String :=
  let parts := splitOnChar (Char.ofNat 10) s.data
  let body := (parts.dropLast.map (fun q =>
    if q.getLast? = some (Char.ofNat 13) then q.dropLast else q)).map String.mk
  match parts.getLast? with
  | none => []
  | some last => if last = [] then body else body ++ [String.mk last]

/-- The lowercase hexadecimal digit of a value below 16, as the {:02x}
formatter renders it: the decimal digits, then the letters from a. -/
def hexDigitChar (n : Nat) : Char :=
  if n < 10 then Char.ofNat (48 + n)
  else if n < 16 then Char.ofNat (87 + n)
  else Char.ofNat 48

/-- Two lowercase hexadecimal digits of a byte, format "{:02x}". -/
def hex2 (n : Nat) : String :=
  String.mk [hexDigitChar (n / 16 % 16), hexDigitChar (n % 16)]

/-- char::is_control: the Unicode Cc category, U+0000 to U+001F and
U+007F to U+009F. -/
def rust_is_control (c : Char) : Bool :=
  c.toNat ≤ 0x1F || (0x7F ≤ c.toNat && c.toNat ≤ 0x9F)

/-- One character of process_special_characters, services/preview/
preview_generator.rs lines 83-112; the cast of the control character to
u8 is the reduction modulo 256 (a no-op for the Cc range). -/
def processChar (c : Char) : String :=
  if c = Char.ofNat 9 then "→   "
  else if c = Char.ofNat 13 then "\\r"
  else if c = Char.ofNat 0 then "\\0"
  else if rust_is_control c && c != Char.ofNat 10 then "\\x" ++ hex2 (c.toNat % 256)
  else String.mk [c]

/-- process_special_characters, services/preview/preview_generator.rs
lines 83-112: each character is rewritten and pushed onto the result. -/
def process_special_characters (s : String) : String :=
  (s.data.map processChar).foldl (fun acc t => acc ++ t) ""

/-- Width-3 right-aligned decimal rendering, format "{:3}". -/
def pad3 (n : Nat) : String :=
  let s := toString n
  if s.length < 3 then String.mk (List.replicate (3 - s.length) (Char.ofNat 32)) ++ s
  else s

/-- The horizontal separator line, a box-drawing dash repeated 50
times. -/
def sepLine : String :=
  String.mk (List.replicate 50 (Char.ofNat 0x2500))

/-- Two-decimal rendering of size/1 MiB, format "{:.2}", with rounding to
the nearest hundredth (half away from zero, where the source's binary
floating-point formatting may differ on exact ties). -/
def formatMB (size : Nat) : String :=
  let h := (size * 100 + 524288) / 1048576
  toString (h / 100) ++ "." ++ (if h % 100 < 10 then "0" else "") ++ toString (h % 100)

def MAX_PREVIEW_SIZE : Nat := 5 * 1024 * 1024

/-- TextPreviewGenerator.generate_preview, services/preview/
text_generator.rs lines 21-126. A rendered line is its list of span
texts; metadata is fs::metadata (none = error, modelled without the io
error text), text is fs::read_to_string (none = unreadable as text). -/
def TextPreviewGenerator.generate_preview (file : FileItem) (metadata : Option Nat)
    (text : Option String) : String × List (List String) :=
  let title := "📄 " ++ file.name
  match metadata with
  | none => (title, [["Error reading file metadata"]])
  | some file_size =>
    if file_size > MAX_PREVIEW_SIZE then
      (title, [["Large File"], [""],
        ["Size: " ++ toString file_size ++ " bytes (" ++ formatMB file_size ++ " MB)"],
        ["File too large for preview (>5MB)"], [""], ["Basic file information:"]])
    else
      match text with
      | some content =>
        let size_info := ["Size: " ++ toString content.utf8ByteSize ++ " bytes, " ++
          toString (rustLines content).length ++ " lines"]
        let content_lines := (rustLines content).enum.map (fun q =>
          [pad3 (q.1 + 1) ++ " ", process_special_characters q.2])
        (title, size_info :: [sepLine] :: content_lines)
      | none =>
        (title, [["Text Read Error"], [""],
          ["Size: " ++ toString file_size ++ " bytes"], ["Cannot read as text"]])

theorem hexDigitChar_not_control (n : Nat) : rust_is_control (hexDigitChar n) = false := by
  rcases Nat.lt_or_ge n 16 with h | h
  · interval_cases n <;> decide
  · unfold hexDigitChar
    rw [if_neg (by omega), if_neg (by omega)]
    decide

theorem processChar_no_control (ch : Char) (hch : ch ≠ Char.ofNat 10) :
    ∀ c ∈ (processChar ch).data, rust_is_control c = false := by
  intro c hc
  unfold processChar at hc
  split_ifs at hc with h1 h2 h3 h4
  · rcases (by simpa using hc : c = Char.ofNat 0x2192 ∨ c = Char.ofNat 32 ∨
      c = Char.ofNat 32 ∨ c = Char.ofNat 32) with rfl | rfl | rfl | rfl <;> decide
  · rcases (by simpa using hc : c = Char.ofNat 92 ∨ c = Char.ofNat 114) with rfl | rfl <;>
      decide
  · rcases (by simpa using hc : c = Char.ofNat 92 ∨ c = Char.ofNat 48) with rfl | rfl <;>
      decide
  · rw [show ("\\x" ++ hex2 (ch.toNat % 256)).data =
      Char.ofNat 92 :: Char.ofNat 120 :: (hex2 (ch.toNat % 256)).data from rfl] at hc
    rcases hc with _ | ⟨_, hc2⟩
    · decide
    · rcases hc2 with _ | ⟨_, hc3⟩
      · decide
      · have hc4 : List.Mem c [hexDigitChar (ch.toNat % 256 / 16 % 16),
            hexDigitChar (ch.toNat % 256 % 16)] := by simpa [hex2] using hc3
        rcases hc4 with _ | ⟨_, hc5⟩
        · exact hexDigitChar_not_control _
        · rcases hc5 with _ | ⟨_, hc6⟩
          · exact hexDigitChar_not_control _
          · cases hc6
  · have hcc : c = ch := by simpa using hc
    subst hcc
    cases hctl : rust_is_control c with
    | false => rfl
    | true =>
      exfalso
      apply h4
      rw [hctl]
      simp only [Bool.true_and]
      simpa using hch

theorem foldl_append_data (l : List String) (acc : String) :
    (l.foldl (fun a t => a ++ t) acc).data = acc.data ++ (l.map String.data).flatten := by
  induction l generalizing acc with
  | nil => simp
  | cons t rest ih =>
    simp only [List.foldl_cons, ih, List.map_cons, List.flatten_cons, String.data_append]
    rw [List.append_assoc]

/-- C8: for a non-directory, non-image, non-PDF file readable as text,
the text generator is chosen; at or below the 5 MiB cap the preview is
the size header and separator followed by exactly the file's lines, the
k-th rendered as the right-aligned 1-based number k+1 and the line with
its special characters rewritten; process_special_characters leaves no
control character in a rendered line; above the cap the preview is the
fixed size/metadata block and is independent of the file's content. -/
theorem C8_text_preview (f : FileItem) (size : Nat) (content : String)
    (hdir : f.is_dir = false) (himg : f.is_image = false) (hpdf : f.is_pdf = false) :
    chosen_generator f true = .text ∧
    (size ≤ MAX_PREVIEW_SIZE →
      (TextPreviewGenerator.generate_preview f (some size) (some content)).2.length =
        2 + (rustLines content).length ∧
      (∀ k line, (rustLines content).get? k = some line →
        (TextPreviewGenerator.generate_preview f (some size)
            (some content)).2.get? (k + 2) =
          some [pad3 (k + 1) ++ " ", process_special_characters line])) ∧
    (MAX_PREVIEW_SIZE < size →
      (TextPreviewGenerator.generate_preview f (some size) (some content)).2 =
        [["Large File"], [""],
         ["Size: " ++ toString size ++ " bytes (" ++ formatMB size ++ " MB)"],
         ["File too large for preview (>5MB)"], [""], ["Basic file information:"]] ∧
      (∀ c2 : String, TextPreviewGenerator.generate_preview f (some size) (some content) =
        TextPreviewGenerator.generate_preview f (some size) (some c2))) ∧
    (∀ str : String, Char.ofNat 10 ∉ str.data →
      ∀ c ∈ (process_special_characters str).data, rust_is_control c = false) := by
  refine ⟨?_, ?_, ?_, ?_⟩
  · simp [chosen_generator, hdir, himg, hpdf]
  · intro hsize
    have hform : (TextPreviewGenerator.generate_preview f (some size) (some content)).2 =
        ["Size: " ++ toString content.utf8ByteSize ++ " bytes, " ++
          toString (rustLines content).length ++ " lines"] :: [sepLine] ::
          (rustLines content).enum.map (fun q =>
            [pad3 (q.1 + 1) ++ " ", process_special_characters q.2]) := by
      unfold TextPreviewGenerator.generate_preview
      dsimp only
      rw [if_neg (show ¬size > MAX_PREVIEW_SIZE by omega)]
    rw [hform]
    constructor
    · simp only [List.length_cons, List.length_map, List.enum_length]
      omega
    · intro k line hline
      simp only [List.get?_cons_succ]
      rw [List.get?_eq_getElem?, List.getElem?_map, List.getElem?_enum]
      rw [List.get?_eq_getElem?] at hline
      rw [hline]
      rfl
  · intro hsize
    constructor
    · unfold TextPreviewGenerator.generate_preview
      dsimp only
      rw [if_pos (show size > MAX_PREVIEW_SIZE by omega)]
    · intro c2
      unfold TextPreviewGenerator.generate_preview
      dsimp only
      rw [if_pos (show size > MAX_PREVIEW_SIZE by omega),
        if_pos (show size > MAX_PREVIEW_SIZE by omega)]
  · intro str hstr c hc
    unfold process_special_characters at hc
    rw [foldl_append_data] at hc
    simp only [String.data, List.nil_append] at hc
    rw [List.mem_flatten] at hc
    obtain ⟨l, hl, hcl⟩ := hc
    rw [List.mem_map] at hl
    obtain ⟨t, ht, rfl⟩ := hl
    rw [List.mem_map] at ht
    obtain ⟨ch, hch, rfl⟩ := ht
    exact processChar_no_control ch (fun h => hstr (h ▸ hch)) c hcl

/-- C8 witness: a small plain text file with a tab, below the cap. -/
theorem C8_text_preview_witness :
    (TextPreviewGenerator.generate_preview
        { name := "notes.txt", path := "/d/notes.txt", is_dir := false }
        (some 8) (some "hi")).2.get? 2 =
      some [pad3 1 ++ " ", process_special_characters "hi"] := by
  have h := C8_text_preview { name := "notes.txt", path := "/d/notes.txt", is_dir := false }
    8 "hi" rfl (by decide) (by decide)
  exact (h.2.1 (by decide)).2 0 "hi" (by decide)

end Quickswitch
